import Mathlib

/-!
Formal model of the `adjacent-overload-signatures` lint rule
(`src/rules/adjacent_overload_signatures.rs`).

The development shallowly embeds the rule's data model and algorithm:

* `Method` mirrors the Rust `enum Method` (the "Identity" of the spec).
* `Diagnostic` and `add_diagnostic` mirror
  `AdjacentOverloadSignaturesVisitor::add_diagnostic`; source spans are
  modelled as natural numbers.
* `checkGo` / `check` mirror `AdjacentOverloadSignaturesVisitor::check`,
  the linear scan with `seen_methods : HashSet<Method>` and
  `last_method : Option<Method>`.  The `HashSet` is modelled as a `List`
  used only through membership and insertion, which preserves its
  observable behaviour in the scan.
* The member shapes (`Decl`, `Stmt`, `ModuleItem`, `ClassMember`,
  `TsTypeElement`, …) and their `get_method` functions mirror the
  `ExtractMethod` implementations.  AST variants whose only role is to
  fall into a `_ => None` arm are collapsed into catch-all constructors.
-/

/-- Mirror of the Rust `enum Method` (the Identity of an overload group).
Lean does not allow a constructor named after its own type, so the Rust
variant `Method::Method` is rendered `Method.Plain`; the other three keep
their source names. -/
inductive Method where
  | Plain (s : String)
  | Static (s : String)
  | CallSignature
  | ConstructSignature
deriving DecidableEq, Repr

/-- Mirror of `Method::get_name`. -/
def Method.get_name : Method → String
  | .Plain s => s
  | .Static s => s
  | .CallSignature => "call"
  | .ConstructSignature => "new"

/-- A single quote character, used to build the diagnostic message. -/
def squote : String := String.singleton (Char.ofNat 39)

/-- A reported lint diagnostic (what `Context::add_diagnostic_with_hint`
receives).  The source span is modelled as a `Nat`. -/
structure Diagnostic where
  span : Nat
  code : String
  message : String
  hint : String
deriving DecidableEq, Repr

/-- Mirror of `AdjacentOverloadSignaturesVisitor::add_diagnostic`. -/
def add_diagnostic (span : Nat) (fn_name : String) : Diagnostic :=
  { span := span
    code := "adjacent-overload-signatures"
    message := "All " ++ squote ++ fn_name ++ squote ++
      " signatures should be adjacent"
    hint := "Make sure all overloaded signatures are grouped together" }

/-- The loop of `AdjacentOverloadSignaturesVisitor::check`, with the
mutable state (`seen_methods`, `last_method`) passed explicitly.  The
diagnostics emitted through the context are collected in order. -/
def checkGo {α : Type} (get_method : α → Option Method) (sp : α → Nat) :
    List α → List Method → Option Method → List Diagnostic
  | [], _, _ => []
  | item :: items, seen_methods, last_method =>
    match get_method item with
    | some method =>
      (if method ∈ seen_methods ∧ last_method ≠ some method then
        [add_diagnostic (sp item) method.get_name]
      else []) ++ checkGo get_method sp items (method :: seen_methods) (some method)
    | none => checkGo get_method sp items seen_methods none

/-- Mirror of `AdjacentOverloadSignaturesVisitor::check`: the scan starts
from a fresh empty `seen_methods` set and `last_method = None`. -/
def check {α : Type} (get_method : α → Option Method) (sp : α → Nat)
    (items : List α) : List Diagnostic :=
  checkGo get_method sp items [] none

theorem checkGo_nil {α : Type} (g : α → Option Method) (sp : α → Nat)
    (seen : List Method) (last : Option Method) :
    checkGo g sp [] seen last = [] := rfl

theorem checkGo_cons_some {α : Type} (g : α → Option Method) (sp : α → Nat)
    (x : α) (xs : List α) (seen : List Method) (last : Option Method)
    (m : Method) (h : g x = some m) :
    checkGo g sp (x :: xs) seen last =
      (if m ∈ seen ∧ last ≠ some m then [add_diagnostic (sp x) m.get_name]
        else []) ++ checkGo g sp xs (m :: seen) (some m) := by
  conv_lhs => unfold checkGo
  rw [h]

theorem checkGo_cons_none {α : Type} (g : α → Option Method) (sp : α → Nat)
    (x : α) (xs : List α) (seen : List Method) (last : Option Method)
    (h : g x = none) :
    checkGo g sp (x :: xs) seen last = checkGo g sp xs seen none := by
  conv_lhs => unfold checkGo
  rw [h]

/-- Expression shapes that can appear as a member key.  `Ident` and
`Lit (Str _)` are the shapes matched by the source; `Tpl` is a template
literal (its argument is `some s` when the template has no substitutions
and its single quasi is statically the literal string `s`, `none`
otherwise); `Member` stands for member expressions such as
`Symbol.iterator`; every other expression shape is collapsed into
`otherExpr`, since all of them fall into the same `_` arm. -/
inductive Lit where
  | Str (value : String)
  | otherLit
deriving DecidableEq, Repr

inductive Expr where
  | Ident (sym : String)
  | Lit (lit : Lit)
  | Tpl (cooked : Option String)
  | Member
  | otherExpr
deriving DecidableEq, Repr

/-- Class-method property keys (`swc` `PropName`).  Numeric and bigint
keys are not described by the spec and are omitted. -/
inductive PropName where
  | Ident (sym : String)
  | Str (value : String)
  | Computed (expr : Expr)
deriving DecidableEq, Repr

/-- Modelled from the spec: `StringRepr::string_repr` for property keys
lives in `src/swc_util.rs`, which is not part of the provided sources.
Per the spec, name extraction accepts a bare identifier, a quoted string
literal, and a computed string or template-literal key whose contents are
statically a literal string; a computed key that is not statically a
literal string yields no name. -/
def string_repr : PropName → Option String
  | .Ident sym => some sym
  | .Str value => some value
  | .Computed (.Lit (.Str value)) => some value
  | .Computed (.Tpl (some value)) => some value
  | .Computed _ => none

inductive MethodKind where
  | Method
  | Getter
  | Setter
deriving DecidableEq, Repr

/-- Class members (`swc` `ClassMember`).  The Rust variant
`ClassMember::Method(ClassMethod { .. })` is rendered `ClassMethod`
(its payload struct's name, to avoid shadowing the `Method` identity
type inside this namespace); it carries the key, the `is_static` flag
and the method kind.  `ClassProp` is a field, `PrivateMethod` a
`#`-named method; the remaining variants (`PrivateProp`,
`TsIndexSignature`, `Empty`) are collapsed into `otherMember`, all
falling into the same `_ => None` arm. -/
inductive ClassMember where
  | ClassMethod (key : PropName) (is_static : Bool) (kind : MethodKind)
  | Constructor
  | PrivateMethod
  | ClassProp
  | otherMember
deriving DecidableEq, Repr

/-- Mirror of `impl ExtractMethod for ClassMember`. -/
def ClassMember.get_method : ClassMember → Option Method
  | .ClassMethod key is_static _ =>
    (string_repr key).map (fun k => if is_static then Method.Static k else Method.Plain k)
  | .Constructor => some (Method.Plain "constructor")
  | _ => none

/-- Interface / type-literal members (`swc` `TsTypeElement`).
`TsMethodSignature` carries its key expression; `TsPropertySignature` is
a property; the remaining variants (index signatures, getter/setter
signatures) are collapsed into `otherElement`, all falling into the same
`_ => None` arm. -/
inductive TsTypeElement where
  | TsMethodSignature (key : Expr)
  | TsCallSignatureDecl
  | TsConstructSignatureDecl
  | TsPropertySignature (key : Expr)
  | otherElement
deriving DecidableEq, Repr

/-- Mirror of `impl ExtractMethod for TsTypeElement`. -/
def TsTypeElement.get_method : TsTypeElement → Option Method
  | .TsMethodSignature key =>
    match key with
    | .Ident sym => some (Method.Plain sym)
    | .Lit (.Str value) => some (Method.Plain value)
    | _ => none
  | .TsCallSignatureDecl => some Method.CallSignature
  | .TsConstructSignatureDecl => some Method.ConstructSignature
  | _ => none

/-- Declarations (`swc` `Decl`).  Only `Fn` carries data used by the
rule; the other variants (`Class`, `Var`, `TsInterface`, `TsTypeAlias`,
`TsEnum`, `TsModule`) all reach the same `_ => None` arm of
`extract_ident_from_decl` and are kept as bare tags. -/
inductive Decl where
  | Fn (ident : String)
  | Class
  | Var
  | TsInterface
  | TsTypeAlias
  | TsEnum
  | TsModule
deriving DecidableEq, Repr

/-- Mirror of `extract_ident_from_decl`. -/
def extract_ident_from_decl : Decl → Option String
  | .Fn ident => some ident
  | _ => none

/-- Mirror of `swc` `ExportDecl` (an `export`-ed declaration). -/
structure ExportDecl where
  decl : Decl
deriving DecidableEq, Repr

/-- Mirror of `impl ExtractMethod for ExportDecl`. -/
def ExportDecl.get_method (e : ExportDecl) : Option Method :=
  (extract_ident_from_decl e.decl).map Method.Plain

/-- Statements (`swc` `Stmt`): a declaration statement or any other
statement shape (collapsed, all reaching the `_ => None` arm). -/
inductive Stmt where
  | Decl (decl : Decl)
  | otherStmt
deriving DecidableEq, Repr

/-- Mirror of `impl ExtractMethod for Stmt`. -/
def Stmt.get_method : Stmt → Option Method
  | .Decl decl => (extract_ident_from_decl decl).map Method.Plain
  | _ => none

/-- Module-level declarations (`swc` `ModuleDecl`): an export
declaration or any other module declaration (imports, re-exports, …). -/
inductive ModuleDecl where
  | ExportDecl (e : ExportDecl)
  | otherModuleDecl
deriving DecidableEq, Repr

inductive ModuleItem where
  | ModuleDecl (d : ModuleDecl)
  | Stmt (s : Stmt)
deriving DecidableEq, Repr

/-- Mirror of `impl ExtractMethod for ModuleItem`. -/
def ModuleItem.get_method : ModuleItem → Option Method
  | .ModuleDecl (.ExportDecl e) => e.get_method
  | .ModuleDecl _ => none
  | .Stmt s => s.get_method

/-- The identity extracted at position `i` of a member list (`none` for
out-of-range positions and for members without an identity). -/
def idAt {α : Type} (get_method : α → Option Method) (items : List α)
    (i : Nat) : Option Method :=
  (items.get? i).bind get_method

theorem idAt_nil {α : Type} (g : α → Option Method) (i : Nat) :
    idAt g [] i = none := by
  cases i <;> rfl

theorem idAt_cons_zero {α : Type} (g : α → Option Method) (x : α)
    (xs : List α) : idAt g (x :: xs) 0 = g x := rfl

theorem idAt_cons_succ {α : Type} (g : α → Option Method) (x : α)
    (xs : List α) (i : Nat) : idAt g (x :: xs) (i + 1) = idAt g xs i := rfl


/-- All occurrences of each identity in the member list form one
contiguous run: between any two positions carrying the same identity,
every position carries that identity too. -/
def ContiguousRuns {α : Type} (get_method : α → Option Method)
    (items : List α) : Prop :=
  ∀ i j k a, i ≤ j → j ≤ k → idAt get_method items i = some a →
    idAt get_method items k = some a → idAt get_method items j = some a

theorem ContiguousRuns.tail {α : Type} {g : α → Option Method} {x : α}
    {xs : List α} (h : ContiguousRuns g (x :: xs)) : ContiguousRuns g xs := by
  intro i j k a hij hjk hi hk
  exact h (i + 1) (j + 1) (k + 1) a (by omega) (by omega) hi hk

/-- Invariant relating the scan state to the unprocessed suffix: any
already-seen identity that still occurs in the suffix must extend the
run the scan is currently inside (so `last` is that identity and the
suffix up to that occurrence carries it throughout). -/
def SeenInv {α : Type} (g : α → Option Method) (items : List α)
    (seen : List Method) (last : Option Method) : Prop :=
  ∀ a, a ∈ seen → ∀ k, idAt g items k = some a →
    last = some a ∧ ∀ j, j ≤ k → idAt g items j = some a

theorem checkGo_eq_nil_of_contiguous {α : Type} (g : α → Option Method)
    (sp : α → Nat) :
    ∀ (items : List α) (seen : List Method) (last : Option Method),
      ContiguousRuns g items → SeenInv g items seen last →
      checkGo g sp items seen last = [] := by
  intro items
  induction items with
  | nil => intro seen last _ _; rfl
  | cons x xs ih =>
    intro seen last hcont hinv
    cases hgx : g x with
    | none =>
      rw [checkGo_cons_none g sp x xs seen last hgx]
      apply ih _ _ hcont.tail
      intro a ha k hk
      have h0 := (hinv a ha (k + 1) hk).2 0 (by omega)
      rw [idAt_cons_zero, hgx] at h0
      exact absurd h0 (by simp)
    | some b =>
      rw [checkGo_cons_some g sp x xs seen last b hgx]
      have hnoflag : ¬(b ∈ seen ∧ last ≠ some b) := by
        rintro ⟨hmem, hne⟩
        exact hne (hinv b hmem 0 (by rw [idAt_cons_zero, hgx])).1
      rw [if_neg hnoflag, List.nil_append]
      apply ih _ _ hcont.tail
      intro a ha k hk
      rcases List.mem_cons.mp ha with rfl | ha'
      · refine ⟨rfl, fun j hj => ?_⟩
        exact hcont 0 (j + 1) (k + 1) a (by omega) (by omega)
          (by rw [idAt_cons_zero, hgx]) hk
      · have h2 := hinv a ha' (k + 1) hk
        have h0 := h2.2 0 (by omega)
        rw [idAt_cons_zero, hgx] at h0
        have hba : b = a := Option.some.inj h0
        subst hba
        exact ⟨rfl, fun j hj => h2.2 (j + 1) (by omega)⟩

theorem idAt_eq_some_iff {α : Type} (g : α → Option Method) (items : List α)
    (i : Nat) (a : Method) :
    idAt g items i = some a ↔ ∃ x, items.get? i = some x ∧ g x = some a := by
  simp [idAt, Option.bind_eq_some]

/-- Every diagnostic the scan emits comes from a member whose own
identity already occurred earlier (or was already in `seen`), and is
anchored at that member's span with that identity's display name. -/
theorem checkGo_mem_spec {α : Type} (g : α → Option Method) (sp : α → Nat) :
    ∀ (items : List α) (seen : List Method) (last : Option Method)
      (d : Diagnostic), d ∈ checkGo g sp items seen last →
      ∃ j x a, items.get? j = some x ∧ g x = some a ∧
        d = add_diagnostic (sp x) a.get_name ∧
        (a ∈ seen ∨ ∃ i, i < j ∧ idAt g items i = some a) := by
  intro items
  induction items with
  | nil => intro seen last d hd; rw [checkGo_nil] at hd; exact absurd hd (by simp)
  | cons x xs ih =>
    intro seen last d hd
    cases hgx : g x with
    | none =>
      rw [checkGo_cons_none g sp x xs seen last hgx] at hd
      obtain ⟨j, y, a, hj, hy, hdd, hrest⟩ := ih seen none d hd
      refine ⟨j + 1, y, a, hj, hy, hdd, ?_⟩
      rcases hrest with ha | ⟨i, hi, hia⟩
      · exact Or.inl ha
      · exact Or.inr ⟨i + 1, by omega, hia⟩
    | some b =>
      rw [checkGo_cons_some g sp x xs seen last b hgx] at hd
      rcases List.mem_append.mp hd with hd1 | hd2
      · by_cases hcond : b ∈ seen ∧ last ≠ some b
        · rw [if_pos hcond] at hd1
          have hdd : d = add_diagnostic (sp x) b.get_name := by simpa using hd1
          exact ⟨0, x, b, rfl, hgx, hdd, Or.inl hcond.1⟩
        · rw [if_neg hcond] at hd1
          exact absurd hd1 (by simp)
      · obtain ⟨j, y, a, hj, hy, hdd, hrest⟩ := ih (b :: seen) (some b) d hd2
        refine ⟨j + 1, y, a, hj, hy, hdd, ?_⟩
        rcases hrest with ha | ⟨i, hi, hia⟩
        · rcases List.mem_cons.mp ha with rfl | ha'
          · exact Or.inr ⟨0, by omega, by rw [idAt_cons_zero, hgx]⟩
          · exact Or.inl ha'
        · exact Or.inr ⟨i + 1, by omega, hia⟩

/-- Specialization of `checkGo_mem_spec` to a fresh scan: every emitted
diagnostic is anchored at a member that has an earlier member of the
very same identity. -/
theorem check_mem_spec {α : Type} (g : α → Option Method) (sp : α → Nat)
    (items : List α) (d : Diagnostic) (hd : d ∈ check g sp items) :
    ∃ j x a, items.get? j = some x ∧ g x = some a ∧
      d = add_diagnostic (sp x) a.get_name ∧
      ∃ i y, i < j ∧ items.get? i = some y ∧ g y = some a := by
  obtain ⟨j, x, a, hj, hx, hdd, hrest⟩ := checkGo_mem_spec g sp items [] none d hd
  rcases hrest with ha | ⟨i, hi, hia⟩
  · exact absurd ha (by simp)
  · obtain ⟨y, hy, hgy⟩ := (idAt_eq_some_iff g items i a).mp hia
    exact ⟨j, x, a, hj, hx, hdd, i, y, hi, hy, hgy⟩

/-- Modelled from the spec: the external traversal framework
(`VisitAll` of `swc_ecmascript`, an out-of-scope collaborator) invokes
the visitor once per container encountered in a file, including nested
containers, and each `visit_*` method of the visitor (source lines
239-271) calls `check` on that container's ordered member list.
`containers` is the list of member lists in traversal order. -/
def visitContainers {α : Type} (get_method : α → Option Method)
    (sp : α → Nat) (containers : List (List α)) : List Diagnostic :=
  (containers.map (check get_method sp)).flatten

/-- Claim C1: one step of the adjacency scan.  A member whose extracted
identity is `some m` is reported as a violation if and only if `m` is
already in the seen-set and the preceding identity `last` is not
`some m`; afterwards `m` is unconditionally inserted into the seen-set
and `last` becomes `some m`.  A member with no identity resets `last`
to `none` and leaves the seen-set unchanged, and a member of an
already-seen identity arriving right after such a gap is flagged. -/
theorem C1_scan_step_characterization {α : Type} (g : α → Option Method)
    (sp : α → Nat) (x : α) (xs : List α) (seen : List Method)
    (last : Option Method) :
    (∀ m, g x = some m →
      checkGo g sp (x :: xs) seen last =
        (if m ∈ seen ∧ last ≠ some m then [add_diagnostic (sp x) m.get_name]
          else []) ++ checkGo g sp xs (m :: seen) (some m)) ∧
    (g x = none →
      checkGo g sp (x :: xs) seen last = checkGo g sp xs seen none) ∧
    (∀ y m ys, g x = none → g y = some m → m ∈ seen →
      checkGo g sp (x :: y :: ys) seen last =
        add_diagnostic (sp y) m.get_name ::
          checkGo g sp ys (m :: seen) (some m)) := by
  refine ⟨fun m h => checkGo_cons_some g sp x xs seen last m h,
    fun h => checkGo_cons_none g sp x xs seen last h,
    fun y m ys hx hy hm => ?_⟩
  rw [checkGo_cons_none g sp x (y :: ys) seen last hx,
    checkGo_cons_some g sp y ys seen none m hy,
    if_pos ⟨hm, by simp⟩, List.singleton_append]

/-- Closed witness for `C1_scan_step_characterization`, at the identity
sequence machinery instantiated with concrete members. -/
theorem C1_scan_step_characterization_witness :
    (checkGo (fun p : Nat × Option Method => p.2) Prod.fst
        [(7, some (Method.Plain "foo"))] [Method.Plain "foo"] none =
      (if Method.Plain "foo" ∈ [Method.Plain "foo"] ∧
          (none : Option Method) ≠ some (Method.Plain "foo") then
        [add_diagnostic 7 (Method.Plain "foo").get_name]
      else []) ++ checkGo (fun p : Nat × Option Method => p.2) Prod.fst []
        (Method.Plain "foo" :: [Method.Plain "foo"]) (some (Method.Plain "foo"))) ∧
    (checkGo (fun p : Nat × Option Method => p.2) Prod.fst
        [(3, none), (4, some (Method.Plain "foo"))] [Method.Plain "foo"]
        (some (Method.Plain "foo")) =
      add_diagnostic 4 (Method.Plain "foo").get_name ::
        checkGo (fun p : Nat × Option Method => p.2) Prod.fst []
          (Method.Plain "foo" :: [Method.Plain "foo"])
          (some (Method.Plain "foo"))) :=
  ⟨(C1_scan_step_characterization (fun p : Nat × Option Method => p.2)
      Prod.fst (7, some (Method.Plain "foo")) [] [Method.Plain "foo"]
      none).1 (Method.Plain "foo") rfl,
   (C1_scan_step_characterization (fun p : Nat × Option Method => p.2)
      Prod.fst (3, none) [(4, some (Method.Plain "foo"))] [Method.Plain "foo"]
      (some (Method.Plain "foo"))).2.2 (4, some (Method.Plain "foo"))
      (Method.Plain "foo") [] rfl rfl (by simp)⟩

/-- Claim C2: if every repeated identity's occurrences form one
contiguous run within the container's member list, the scan emits zero
diagnostics. -/
theorem C2_contiguous_no_diagnostics {α : Type} (g : α → Option Method)
    (sp : α → Nat) (items : List α) (h : ContiguousRuns g items) :
    check g sp items = [] :=
  checkGo_eq_nil_of_contiguous g sp items [] none h
    (fun a ha => absurd ha (List.not_mem_nil a))

/-- Closed witness for `C2_contiguous_no_diagnostics`: a class body of
two adjacent `foo` overloads is contiguous and yields no diagnostics. -/
theorem C2_contiguous_no_diagnostics_witness :
    check (fun p : Nat × ClassMember => p.2.get_method) Prod.fst
      [(0, .ClassMethod (.Ident "foo") false .Method),
       (1, .ClassMethod (.Ident "foo") false .Method)] = [] := by
  apply C2_contiguous_no_diagnostics
  intro i j k a hij hjk hi hk
  have hk2 : k < 2 := by
    by_contra hge
    push_neg at hge
    obtain ⟨n, rfl⟩ : ∃ n, k = n + 2 := ⟨k - 2, by omega⟩
    rw [idAt_cons_succ, idAt_cons_succ, idAt_nil] at hk
    exact Option.noConfusion hk
  have hval : ∀ t, t < 2 →
      idAt (fun p : Nat × ClassMember => p.2.get_method)
        [(0, .ClassMethod (.Ident "foo") false .Method),
         (1, .ClassMethod (.Ident "foo") false .Method)] t =
        some (Method.Plain "foo") := by
    intro t ht
    interval_cases t <;> rfl
  have ha : a = Method.Plain "foo" := by
    have hv := hval k hk2
    rw [hk] at hv
    exact Option.some.inj hv
  rw [ha]
  exact hval j (by omega)

/-- Claim C3: the identity sequence `[A, A, B, A]` yields exactly one
diagnostic, anchored at the 4th member and naming `A`; the sequence
`[A, A, B, A, A]` still yields exactly that one diagnostic (member 5 is
adjacent to member 4 and is not flagged). -/
theorem C3_single_gap_non_cascading (a b : Method) (h : a ≠ b) :
    check (fun p : Nat × Option Method => p.2) Prod.fst
        [(0, some a), (1, some a), (2, some b), (3, some a)] =
      [add_diagnostic 3 a.get_name] ∧
    check (fun p : Nat × Option Method => p.2) Prod.fst
        [(0, some a), (1, some a), (2, some b), (3, some a), (4, some a)] =
      [add_diagnostic 3 a.get_name] := by
  constructor <;> simp [check, checkGo, h, Ne.symm h]

/-- Closed witness for `C3_single_gap_non_cascading`. -/
theorem C3_single_gap_non_cascading_witness :
    check (fun p : Nat × Option Method => p.2) Prod.fst
        [(0, some (Method.Plain "A")), (1, some (Method.Plain "A")),
         (2, some (Method.Plain "B")), (3, some (Method.Plain "A"))] =
      [add_diagnostic 3 (Method.Plain "A").get_name] ∧
    check (fun p : Nat × Option Method => p.2) Prod.fst
        [(0, some (Method.Plain "A")), (1, some (Method.Plain "A")),
         (2, some (Method.Plain "B")), (3, some (Method.Plain "A")),
         (4, some (Method.Plain "A"))] =
      [add_diagnostic 3 (Method.Plain "A").get_name] :=
  C3_single_gap_non_cascading (Method.Plain "A") (Method.Plain "B") (by decide)

/-- Claim C4: a static member and an instance member of the same name
extract to distinct identities, and every diagnostic the scan emits at a
member of some identity is caused by an earlier member of that very same
identity (same kind and same name) — members of the other kind never
join the group. -/
theorem C4_static_instance_distinct :
    (∀ (key : PropName) (k : String) (kind : MethodKind),
      string_repr key = some k →
      (ClassMember.ClassMethod key true kind).get_method =
        some (Method.Static k) ∧
      (ClassMember.ClassMethod key false kind).get_method =
        some (Method.Plain k) ∧
      Method.Static k ≠ Method.Plain k) ∧
    (∀ (items : List (Nat × ClassMember)) (d : Diagnostic),
      d ∈ check (fun p : Nat × ClassMember => p.2.get_method) Prod.fst items →
      ∃ j x a, items.get? j = some x ∧ x.2.get_method = some a ∧
        d = add_diagnostic x.1 a.get_name ∧
        ∃ i y, i < j ∧ items.get? i = some y ∧ y.2.get_method = some a) := by
  constructor
  · intro key k kind hk
    refine ⟨?_, ?_, by simp⟩
    · simp [ClassMember.get_method, hk]
    · simp [ClassMember.get_method, hk]
  · intro items d hd
    exact check_mem_spec _ _ items d hd

/-- Closed witness for `C4_static_instance_distinct`: the extraction
part at key `foo`, and the provenance part at the class body
`[static foo, foo, static foo]`, whose single diagnostic is anchored at
the third member (the second static `foo`). -/
theorem C4_static_instance_distinct_witness :
    ((ClassMember.ClassMethod (.Ident "foo") true .Getter).get_method =
        some (Method.Static "foo") ∧
      (ClassMember.ClassMethod (.Ident "foo") false .Getter).get_method =
        some (Method.Plain "foo") ∧
      Method.Static "foo" ≠ Method.Plain "foo") ∧
    (∃ j x a,
      ([(0, ClassMember.ClassMethod (.Ident "foo") true .Method),
        (1, ClassMember.ClassMethod (.Ident "foo") false .Method),
        (2, ClassMember.ClassMethod (.Ident "foo") true .Method)] :
          List (Nat × ClassMember)).get? j = some x ∧
      x.2.get_method = some a ∧
      add_diagnostic 2 "foo" = add_diagnostic x.1 a.get_name ∧
      ∃ i y, i < j ∧
        ([(0, ClassMember.ClassMethod (.Ident "foo") true .Method),
          (1, ClassMember.ClassMethod (.Ident "foo") false .Method),
          (2, ClassMember.ClassMethod (.Ident "foo") true .Method)] :
            List (Nat × ClassMember)).get? i = some y ∧
        y.2.get_method = some a) :=
  ⟨C4_static_instance_distinct.1 (.Ident "foo") "foo" .Getter rfl,
   C4_static_instance_distinct.2
     [(0, ClassMember.ClassMethod (.Ident "foo") true .Method),
      (1, ClassMember.ClassMethod (.Ident "foo") false .Method),
      (2, ClassMember.ClassMethod (.Ident "foo") true .Method)]
     (add_diagnostic 2 "foo") (by decide)⟩

/-- Claim C5: diagnostics are anchored at the violating member's span
and carry the message built from the identity's display name (`call`
for a call signature, `new` for a construct signature, the declared
name otherwise) and the fixed hint; the interleavings
`[new(...), foo(), new(...)]` and `[(...)=>void, foo(), (...)=>void]`
are flagged at their third member with display names `new` and `call`. -/
theorem C5_diagnostic_message_and_anchor :
    (∀ s, (Method.Plain s).get_name = s) ∧
    (∀ s, (Method.Static s).get_name = s) ∧
    Method.CallSignature.get_name = "call" ∧
    Method.ConstructSignature.get_name = "new" ∧
    (∀ span fn_name, (add_diagnostic span fn_name).span = span ∧
      (add_diagnostic span fn_name).message =
        "All " ++ squote ++ fn_name ++ squote ++
          " signatures should be adjacent" ∧
      (add_diagnostic span fn_name).hint =
        "Make sure all overloaded signatures are grouped together") ∧
    (∀ (items : List (Nat × TsTypeElement)) (d : Diagnostic),
      d ∈ check (fun p : Nat × TsTypeElement => p.2.get_method) Prod.fst
        items →
      ∃ j x a, items.get? j = some x ∧ x.2.get_method = some a ∧
        d = add_diagnostic x.1 a.get_name) ∧
    check (fun p : Nat × TsTypeElement => p.2.get_method) Prod.fst
        [(0, .TsConstructSignatureDecl), (1, .TsMethodSignature (.Ident "foo")),
         (2, .TsConstructSignatureDecl)] = [add_diagnostic 2 "new"] ∧
    check (fun p : Nat × TsTypeElement => p.2.get_method) Prod.fst
        [(0, .TsCallSignatureDecl), (1, .TsMethodSignature (.Ident "foo")),
         (2, .TsCallSignatureDecl)] = [add_diagnostic 2 "call"] := by
  refine ⟨fun s => rfl, fun s => rfl, rfl, rfl,
    fun span fn_name => ⟨rfl, rfl, rfl⟩, ?_, rfl, rfl⟩
  intro items d hd
  obtain ⟨j, x, a, hj, hx, hdd, _⟩ := check_mem_spec _ _ items d hd
  exact ⟨j, x, a, hj, hx, hdd⟩

/-- Closed witness for `C5_diagnostic_message_and_anchor`: the
anchoring part applied to the interface body `[new(...), foo(),
new(...)]` and its concrete diagnostic. -/
theorem C5_diagnostic_message_and_anchor_witness :
    ∃ j x a,
      ([(0, TsTypeElement.TsConstructSignatureDecl),
        (1, TsTypeElement.TsMethodSignature (.Ident "foo")),
        (2, TsTypeElement.TsConstructSignatureDecl)] :
          List (Nat × TsTypeElement)).get? j = some x ∧
      x.2.get_method = some a ∧
      add_diagnostic 2 "new" = add_diagnostic x.1 a.get_name :=
  C5_diagnostic_message_and_anchor.2.2.2.2.2.1
    [(0, TsTypeElement.TsConstructSignatureDecl),
     (1, TsTypeElement.TsMethodSignature (.Ident "foo")),
     (2, TsTypeElement.TsConstructSignatureDecl)]
    (add_diagnostic 2 "new") (by decide)

/-- Claim C6: a constructor member extracts to the identity
`Method.Plain "constructor"`, exactly the identity of an instance
method named `constructor`, and interleaved constructor overloads are
flagged with display name `constructor`. -/
theorem C6_constructor_grouping :
    ClassMember.Constructor.get_method = some (Method.Plain "constructor") ∧
    ClassMember.Constructor.get_method =
      (ClassMember.ClassMethod (.Ident "constructor") false .Method).get_method ∧
    (Method.Plain "constructor").get_name = "constructor" ∧
    check (fun p : Nat × ClassMember => p.2.get_method) Prod.fst
        [(0, .Constructor), (1, .ClassMethod (.Ident "bar") false .Method),
         (2, .Constructor)] = [add_diagnostic 2 "constructor"] :=
  ⟨rfl, rfl, rfl, rfl⟩

/-- Claim C7: identity extraction is total and returns `none` on
non-name-bearing members (variable statements, class fields, nested
class declarations, computed non-literal keys, property signatures),
and a `none` member only resets `last` — the scan proceeds with the
seen-set intact, so detection elsewhere in the container is never
suppressed (the concrete class body `[foo, field, foo]` is still
flagged at its third member). -/
theorem C7_extraction_totality :
    ((Stmt.Decl Decl.Var).get_method = none) ∧
    ((Stmt.Decl Decl.Class).get_method = none) ∧
    (Stmt.otherStmt.get_method = none) ∧
    (ClassMember.ClassProp.get_method = none) ∧
    ((ClassMember.ClassMethod (.Computed Expr.Member) false .Method).get_method
      = none) ∧
    ((TsTypeElement.TsMethodSignature Expr.Member).get_method = none) ∧
    (∀ key, (TsTypeElement.TsPropertySignature key).get_method = none) ∧
    (∀ {α : Type} (g : α → Option Method) (sp : α → Nat) (x : α)
      (xs : List α) (seen : List Method) (last : Option Method),
      g x = none → checkGo g sp (x :: xs) seen last = checkGo g sp xs seen none) ∧
    check (fun p : Nat × ClassMember => p.2.get_method) Prod.fst
        [(0, .ClassMethod (.Ident "foo") false .Method), (1, .ClassProp),
         (2, .ClassMethod (.Ident "foo") false .Method)] =
      [add_diagnostic 2 "foo"] := by
  refine ⟨rfl, rfl, rfl, rfl, rfl, rfl, fun key => rfl, ?_, rfl⟩
  intro α g sp x xs seen last h
  exact checkGo_cons_none g sp x xs seen last h

/-- Closed witness for `C7_extraction_totality`: the gap-step part at a
concrete member with no identity. -/
theorem C7_extraction_totality_witness :
    checkGo (fun p : Nat × ClassMember => p.2.get_method) Prod.fst
        [(1, ClassMember.ClassProp)] [Method.Plain "foo"]
        (some (Method.Plain "foo")) =
      checkGo (fun p : Nat × ClassMember => p.2.get_method) Prod.fst []
        [Method.Plain "foo"] none :=
  C7_extraction_totality.2.2.2.2.2.2.2.1
    (fun p : Nat × ClassMember => p.2.get_method) Prod.fst
    (1, ClassMember.ClassProp) [] [Method.Plain "foo"]
    (some (Method.Plain "foo")) rfl

/-- Claim C8 as stated is false on the code: for a type-literal or
interface member, a computed template-literal key whose contents are
statically the literal string `foo` does not resolve to the identity of
a bare-identifier key `foo` — it yields no identity at all, because the
source matches only `Expr::Ident` and `Expr::Lit(Lit::Str)` for
`TsMethodSignature` keys. -/
theorem C8_counterexample :
    (TsTypeElement.TsMethodSignature (Expr.Tpl (some "foo"))).get_method =
      none ∧
    (TsTypeElement.TsMethodSignature (Expr.Ident "foo")).get_method =
      some (Method.Plain "foo") ∧
    ¬((TsTypeElement.TsMethodSignature (Expr.Tpl (some "foo"))).get_method =
      (TsTypeElement.TsMethodSignature (Expr.Ident "foo")).get_method) :=
  ⟨rfl, rfl, by decide⟩

/-- Claim C8, amended: for class members all three key spellings —
bare identifier, quoted string literal, computed string or
template-literal key that is statically a literal string — resolve to
the same identity; for type-literal/interface members a bare
identifier and a string-literal key (quoted or computed) resolve to
the same identity but a computed template-literal key yields no
identity; a computed key that is not statically a literal string
yields no identity. -/
theorem C8_amended_key_spellings :
    (∀ s : String,
      (ClassMember.ClassMethod (.Ident s) false .Method).get_method =
        some (Method.Plain s) ∧
      (ClassMember.ClassMethod (.Str s) false .Method).get_method =
        some (Method.Plain s) ∧
      (ClassMember.ClassMethod (.Computed (.Lit (.Str s))) false
        .Method).get_method = some (Method.Plain s) ∧
      (ClassMember.ClassMethod (.Computed (.Tpl (some s))) false
        .Method).get_method = some (Method.Plain s)) ∧
    (∀ s : String,
      (TsTypeElement.TsMethodSignature (.Ident s)).get_method =
        some (Method.Plain s) ∧
      (TsTypeElement.TsMethodSignature (.Lit (.Str s))).get_method =
        some (Method.Plain s) ∧
      (TsTypeElement.TsMethodSignature (.Tpl (some s))).get_method = none) ∧
    ((ClassMember.ClassMethod (.Computed Expr.Member) false
      .Method).get_method = none) ∧
    ((ClassMember.ClassMethod (.Computed (.Tpl none)) false
      .Method).get_method = none) ∧
    ((TsTypeElement.TsMethodSignature Expr.Member).get_method = none) :=
  ⟨fun _ => ⟨rfl, rfl, rfl, rfl⟩, fun _ => ⟨rfl, rfl, rfl⟩, rfl, rfl, rfl⟩

/-- Claim C9: every invocation of `check` starts from a fresh empty
seen-set and `last = none`, and the diagnostics of a run over many
containers (as produced by the traversal framework invoking `check`
once per container, nested ones included) decompose per container:
each container's slice is `check` of its own member list alone,
unaffected by every other container. -/
theorem C9_fresh_state_per_container {α : Type} (g : α → Option Method)
    (sp : α → Nat) :
    (∀ items : List α, check g sp items = checkGo g sp items [] none) ∧
    (∀ (pre : List (List α)) (c : List α) (post : List (List α)),
      visitContainers g sp (pre ++ c :: post) =
        visitContainers g sp pre ++ check g sp c ++
          visitContainers g sp post) := by
  refine ⟨fun items => rfl, fun pre c post => ?_⟩
  simp [visitContainers, List.append_assoc]

/-- Claim C10: for class methods the extracted identity does not depend
on the method kind (ordinary method, getter or setter) — it depends
only on the resolved key string and the static flag — so `foo`
overloads of different kinds form one overload set; private methods are
excluded. -/
theorem C10_method_kind_ignored :
    (∀ (key : PropName) (st : Bool) (k1 k2 : MethodKind),
      (ClassMember.ClassMethod key st k1).get_method =
        (ClassMember.ClassMethod key st k2).get_method) ∧
    (∀ (key1 key2 : PropName) (st : Bool) (kind : MethodKind),
      string_repr key1 = string_repr key2 →
      (ClassMember.ClassMethod key1 st kind).get_method =
        (ClassMember.ClassMethod key2 st kind).get_method) ∧
    ((ClassMember.ClassMethod (.Ident "foo") false .Getter).get_method =
      some (Method.Plain "foo")) ∧
    ((ClassMember.ClassMethod (.Ident "foo") false .Setter).get_method =
      some (Method.Plain "foo")) ∧
    ((ClassMember.ClassMethod (.Ident "foo") false .Method).get_method =
      some (Method.Plain "foo")) ∧
    (ClassMember.PrivateMethod.get_method = none) ∧
    check (fun p : Nat × ClassMember => p.2.get_method) Prod.fst
        [(0, .ClassMethod (.Ident "foo") false .Getter),
         (1, .ClassMethod (.Ident "bar") false .Method),
         (2, .ClassMethod (.Ident "foo") false .Setter)] =
      [add_diagnostic 2 "foo"] := by
  refine ⟨fun key st k1 k2 => rfl, fun key1 key2 st kind h => ?_, rfl, rfl,
    rfl, rfl, rfl⟩
  simp [ClassMember.get_method, h]

/-- Closed witness for `C10_method_kind_ignored`: the key-equivalence
part at an identifier key and a string key spelling the same name. -/
theorem C10_method_kind_ignored_witness :
    (ClassMember.ClassMethod (.Ident "x") false .Method).get_method =
      (ClassMember.ClassMethod (.Str "x") false .Method).get_method :=
  C10_method_kind_ignored.2.1 (.Ident "x") (.Str "x") false .Method rfl
